import Mathlib

/-!
Verification development for the TradingView Strong-Buy scraper
(`tradingview_screener_flask_app.py`).

The development shallowly embeds the parts of the program the claims
are about:

* the extraction pipeline `parse_rows_from_soup` (lines 61-107 of the
  source), including the three heuristic regular expressions evaluated
  with the backtracking semantics of Python's `re` engine, the
  ancestor walk, `get_text(separator, strip)` flattening, and the
  first-occurrence deduplication by symbol/context key;
* the scan-cycle orchestrator `scrape_tradingview_and_notify`
  (lines 117-150), modelled with explicit state passing and explicit
  fault injection mirroring the code's `try`/`except` structure;
* a small interleaving model for the two snapshot assignments
  (lines 146-147) racing with a concurrent status read
  (lines 162-175).

HTML documents are modelled as ordered trees of elements and text
nodes (the DOM that BeautifulSoup exposes to `parse_rows_from_soup`);
machine floats (`time.time()`) are abstracted to `Nat` instants, which
is sound for the claims at hand since only assignment/update order is
ever observed.
-/

/-! ## Character classes used by the Python regexes -/

/-- Python `\s` for the ASCII range: space, tab, newline, carriage
return, vertical tab, form feed.  (The source's texts are ASCII; the
non-ASCII whitespace Python would additionally match does not occur in
any claim.) -/
def isWsPy (c : Char) : Bool :=
  c = ' ' || c = '\t' || c = '\n' || c = '\r' || c = Char.ofNat 11 || c = Char.ofNat 12

/-- Decimal separator class `[\.,]` of the change/volume regexes. -/
def isSepCh (c : Char) : Bool :=
  c = '.' || c = ','

/-- Symbol character class `[A-Z0-9_\-]` of the symbol regex
(line 81). -/
def isSymCh (c : Char) : Bool :=
  c.isUpper || c.isDigit || c = '_' || c = '-'

/-- ASCII lower-casing, as used by `re.IGNORECASE` on the ASCII
letters of the `Strong\s*Buy` pattern. -/
def lowAscii (c : Char) : Char :=
  if 'A' ≤ c ∧ c ≤ 'Z' then Char.ofNat (c.toNat + 32) else c

/-! ## Small string helpers (Python `str` operations) -/

/-- Length of the maximal whitespace prefix. -/
def wsRun (cs : List Char) : Nat :=
  (cs.takeWhile isWsPy).length

/-- Length of the maximal decimal-digit prefix. -/
def digitRun (cs : List Char) : Nat :=
  (cs.takeWhile Char.isDigit).length

/-- Length of the maximal symbol-class prefix. -/
def symRun (cs : List Char) : Nat :=
  (cs.takeWhile isSymCh).length

/-- Python `text[:n]` (slicing counts code points). -/
def takeChars (s : String) (n : Nat) : String :=
  String.mk (s.data.take n)

/-- Python `text.split(sep)[0]`: the prefix of the text before the
first pipe character (the whole text when no pipe occurs). -/
def firstPipeSeg (s : String) : String :=
  String.mk (s.data.takeWhile (fun c => c ≠ '|'))

/-- Python `str.strip()` restricted to the ASCII whitespace actually
occurring in the modelled texts. -/
def stripStr (s : String) : String :=
  String.mk (((s.data.dropWhile isWsPy).reverse.dropWhile isWsPy).reverse)

/-- Join a list of strings with the `|` separator, as
`get_text(separator='|', ...)` does. -/
def joinPipe : List String → String
  | [] => ""
  | [s] => s
  | s :: rest => s ++ "|" ++ joinPipe rest

/-! ## A faithful model of the `re` backtracking engine

Matchers are functions `List Char → Option Nat` returning the number
of characters consumed by a successful match starting at the head of
the input.  Greedy repetition with backtracking is modelled by the
continuation-passing combinators below, which try the longer
alternative first and fall back exactly as Python's engine does. -/

/-- Match one character satisfying `p`, then continue. -/
def charC (p : Char → Bool) (cont : List Char → Option Nat) : List Char → Option Nat
  | [] => none
  | c :: rest => if p c then (cont rest).map (· + 1) else none

/-- Greedy `p*` followed by `cont`, with backtracking: consume as many
`p`-characters as possible, retrying the continuation at every shorter
run on failure, exactly like the engine's greedy star. -/
def starC (p : Char → Bool) (cont : List Char → Option Nat) : List Char → Option Nat
  | [] => cont []
  | c :: rest =>
    if p c then
      match starC p cont rest with
      | some n => some (n + 1)
      | none => cont (c :: rest)
    else cont (c :: rest)

/-- Greedy optional group: try `tryM` (the group followed by its own
continuation) first, fall back to `cont` on the same input. -/
def optC (tryM : List Char → Option Nat) (cont : List Char → Option Nat) (cs : List Char) : Option Nat :=
  match tryM cs with
  | some n => some n
  | none => cont cs

/-- Try `f n, f (n-1), ..., f 0` and return the first success, the
order a greedy bounded repetition explores its counts. -/
def firstSomeDown (f : Nat → Option Nat) : Nat → Option Nat
  | 0 => f 0
  | n + 1 =>
    match f (n + 1) with
    | some v => some v
    | none => firstSomeDown f n

/-- Unanchored leftmost search, like `re.search`: try the matcher at
every start position from the left (including the end-of-string
position) and return the matched substring of the first success. -/
def reSearch (m : List Char → Option Nat) : List Char → Option (List Char)
  | [] => (m []).map (fun n => List.take n [])
  | c :: rest =>
    match m (c :: rest) with
    | some n => some ((c :: rest).take n)
    | none => reSearch m rest

/-! ## The `Strong\s*Buy` marker (lines 66 and 129, `re.I`) -/

/-- Case-insensitive literal match of `pat` (given lower-case) at the
head of the input, returning the rest. -/
def matchCI : List Char → List Char → Option (List Char)
  | [], cs => some cs
  | _ :: _, [] => none
  | p :: ps, c :: cs => if lowAscii c = p then matchCI ps cs else none

/-- Case-sensitive literal match of `pat` at the head of the input,
returning the rest (the symbol regex of line 81 carries no `re.I`). -/
def matchCS : List Char → List Char → Option (List Char)
  | [], cs => some cs
  | _ :: _, [] => none
  | p :: ps, c :: cs => if c = p then matchCS ps cs else none

/-- Matcher for `Strong\s*Buy` (case-insensitive) at the current
position.  Backtracking inside `\s*` is vacuous here because a
whitespace character can never begin `Buy`. -/
def markerAt (cs : List Char) : Bool :=
  match matchCI [ 's', 't', 'r', 'o', 'n', 'g' ] cs with
  | none => false
  | some rest =>
    match matchCI [ 'b', 'u', 'y' ] (rest.dropWhile isWsPy) with
    | none => false
    | some _ => true

/-- Does `p` hold at some position of the list (including the empty
suffix)? -/
def anyPos (p : List Char → Bool) : List Char → Bool
  | [] => p []
  | c :: cs => p (c :: cs) || anyPos p cs

/-- Python `re.search(r'Strong\s*Buy', s, re.I) is not None`. -/
def containsMarker (s : String) : Bool :=
  anyPos markerAt s.data

/-! ## The change regex `(-?\d{1,3}(?:[\.,]\d+)?\s*%)` (line 85) -/

/-- Literal `%`, consuming one character. -/
def pctC : List Char → Option Nat :=
  charC (fun c => c = '%') (fun _ => some 0)

/-- Tail `\s*%` of the change regex. -/
def wsPctC : List Char → Option Nat :=
  starC isWsPy pctC

/-- Tail `\d+\s*%` (used after the decimal separator):
`\d+ == \d\d*`. -/
def digitsWsPctC : List Char → Option Nat :=
  charC Char.isDigit (starC Char.isDigit wsPctC)

/-- Tail `(?:[\.,]\d+)?\s*%`: greedily try the fractional group, fall
back to `\s*%` alone. -/
def fracWsPctC : List Char → Option Nat :=
  optC (charC isSepCh digitsWsPctC) wsPctC

/-- Tail `\d{1,3}(?:[\.,]\d+)?\s*%`, with `\d{1,3}` unrolled to
`\d(\d(\d)?)?` in greedy order (three digits tried first). -/
def numChangeC : List Char → Option Nat :=
  charC Char.isDigit
    (optC (charC Char.isDigit
      (optC (charC Char.isDigit fracWsPctC) fracWsPctC)) fracWsPctC)

/-- Full change pattern `-?\d{1,3}(?:[\.,]\d+)?\s*%` at the current
position: the optional minus is tried greedily first. -/
def changeM : List Char → Option Nat :=
  optC (charC (fun c => c = '-') numChangeC) numChangeC

/-- Line 85-86: first match of the change regex in the flattened text,
or `none`. -/
def searchChange (s : String) : Option String :=
  (reSearch changeM s.data).map String.mk

/-! ## The symbol regex `([A-Z0-9_\-]{2,20}\/?USDT|[A-Z0-9_\-]{2,20})` (line 81) -/

/-- First alternative `[A-Z0-9_\-]{2,20}\/?USDT` at the current
position: the bounded repetition tries the longest count first, and
for each count the optional slash is tried before its absence. -/
def symBranch1 (cs : List Char) : Option Nat :=
  firstSomeDown
    (fun k =>
      if 2 ≤ k ∧ k ≤ min (symRun cs) 20 then
        match matchCS [ '/', 'U', 'S', 'D', 'T' ] (cs.drop k) with
        | some _ => some (k + 5)
        | none =>
          match matchCS [ 'U', 'S', 'D', 'T' ] (cs.drop k) with
          | some _ => some (k + 4)
          | none => none
      else none)
    (min (symRun cs) 20)

/-- Whole symbol pattern at the current position: alternative one with
all of its backtracking, then alternative two
`[A-Z0-9_\-]{2,20}` (which greedily takes `min(run, 20)`
characters). -/
def symM (cs : List Char) : Option Nat :=
  match symBranch1 cs with
  | some n => some n
  | none => if 2 ≤ symRun cs then some (min (symRun cs) 20) else none

/-- Line 81: first match of the symbol regex in the flattened text. -/
def searchSymbol (s : String) : Option String :=
  (reSearch symM s.data).map String.mk

/-! ## The volume scan `re.findall(r'\d+[\.,]?\d*\s*(?:K|M|B)?', text)` (line 91) -/

/-- Is `c` one of the magnitude suffixes `K`, `M`, `B` (the pattern is
case-sensitive)? -/
def isMagCh (c : Char) : Bool :=
  c = 'K' || c = 'M' || c = 'B'

/-- Length of the volume-token match starting at a digit: every part
after `\d+` is optional and greedy, so the engine never backtracks and
the match is maximal munch part by part. -/
def volLen (cs : List Char) : Nat :=
  let d1 := digitRun cs
  let r1 := cs.drop d1
  let sep := match r1 with
    | c :: _ => if isSepCh c then 1 else 0
    | [] => 0
  let r2 := r1.drop sep
  let d2 := digitRun r2
  let r3 := r2.drop d2
  let w := wsRun r3
  let r4 := r3.drop w
  let mag := match r4 with
    | c :: _ => if isMagCh c then 1 else 0
    | [] => 0
  d1 + sep + d2 + w + mag

/-- Python `re.findall` for the volume pattern: scan left to right,
emitting non-overlapping matches; a match can only start at a digit
and always consumes at least that digit.  Recursion is by fuel; since
every step of the scan consumes at least one character, fuel equal to
the input length (as supplied by `findallVol`) never runs out. -/
def findallVolAux : Nat → List Char → List String
  | 0, _ => []
  | _, [] => []
  | fuel + 1, c :: cs =>
    if c.isDigit then
      String.mk ((c :: cs).take (volLen (c :: cs))) :: findallVolAux fuel ((c :: cs).drop (volLen (c :: cs)))
    else
      findallVolAux fuel cs

/-- Line 91: the list of volume-pattern matches of the text. -/
def findallVol (cs : List Char) : List String :=
  findallVolAux cs.length cs

/-- Line 91-92: `vols[-1] if vols else ''`. -/
def lastVol (s : String) : String :=
  (findallVol s.data).getLast?.getD ""

/-! ## The document model

BeautifulSoup presents the fetched markup as an ordered tree whose
leaves are text nodes (`NavigableString`) and whose inner nodes are
elements with a tag name; the soup object itself is the root.  The
extractor only ever inspects tag names, parent chains, and the text
leaves in document order, so that tree is the whole interface. -/

mutual
inductive Node where
  | text : String → Node
  | elem : String → NodeList → Node
inductive NodeList where
  | nil : NodeList
  | cons : Node → NodeList → NodeList
end

/-- Build a `NodeList` from a `List Node` (concrete test documents are
written with list literals). -/
def NodeList.ofList : List Node → NodeList
  | [] => .nil
  | n :: ns => .cons n (NodeList.ofList ns)

/-- Line 73: is this node one of the container elements
`('tr', 'div', 'li', 'section')`?  A text node's `name` is `None` in
Python and never matches. -/
def isContainer : Node → Bool
  | .text _ => false
  | .elem tag _ => tag = "tr" || tag = "div" || tag = "li" || tag = "section"

mutual
/-- All text leaves of a subtree in document order (the strings
`get_text` concatenates). -/
def allStrings : Node → List String
  | .text s => [s]
  | .elem _ cs => allStringsL cs
def allStringsL : NodeList → List String
  | .nil => []
  | .cons n ns => allStrings n ++ allStringsL ns
end

/-- Line 79: `parent.get_text(separator='|', strip=True)` — strip each
descendant string, drop the ones that strip to empty, join the rest
with a pipe. -/
def getText (n : Node) : String :=
  joinPipe (((allStrings n).map stripStr).filter (fun s => s ≠ ""))

mutual
/-- All text leaves paired with their full parent chain (the node
itself first, then its ancestors innermost-first, ending at the root),
in document order.  The chain is where line 69's upward walk starts:
Python initialises `parent = node` with the text node itself. -/
def textChains (anc : List Node) : Node → List (String × List Node)
  | .text s => [(s, .text s :: anc)]
  | .elem t cs => textChainsL (.elem t cs :: anc) cs
def textChainsL (anc : List Node) : NodeList → List (String × List Node)
  | .nil => []
  | .cons n ns => textChains anc n ++ textChainsL anc ns
end

/-- Lines 69-77: the upward walk.  Python runs at most `budget`
iterations; each iteration breaks on a missing parent (`None`, here an
exhausted chain) or on a container, otherwise climbs one level.  When
the budget runs out with a parent in hand, that parent is used; a
`None` parent makes the caller skip the marker. -/
def climb : Nat → List Node → Option Node
  | 0, [] => none
  | 0, p :: _ => some p
  | _ + 1, [] => none
  | n + 1, p :: rest => if isContainer p then some p else climb n rest

/-- Lines 79-98: build one candidate record from the flattened text of
the chosen container.  `symbol` falls back from the symbol regex to
the text before the first pipe to the literal `unknown` (Python's
`or`/truthiness on the empty string); `change_24h` and `volume_24h`
default to the empty string. -/
structure Record where
  symbol : String
  change_24h : String
  volume_24h : String
  context : String
deriving DecidableEq

/-- Lines 80-82: the symbol field of a flattened text. -/
def symField (text : String) : String :=
  match searchSymbol text with
  | some m => m
  | none => if text ≠ "" then firstPipeSeg text else "unknown"

/-- Lines 79-99: the record appended for a chosen container whose
flattened text is `text`. -/
def buildRecord (text : String) : Record :=
  { symbol := symField text
    change_24h := (searchChange text).getD ""
    volume_24h := lastVol text
    context := text }

/-- Line 66: the candidate text nodes (those whose string contains the
marker), each with its parent chain, in document order. -/
def candidateChains (root : Node) : List (String × List Node) :=
  (textChains [] root).filter (fun p => containsMarker p.1)

/-- Lines 63-99: the `results` list before deduplication — one record
per marker candidate whose walk found a parent, in document order. -/
def rawResults (root : Node) : List Record :=
  (candidateChains root).filterMap
    (fun p => (climb 5 p.2).map (fun parent => buildRecord (getText parent)))

/-- Line 104: the dedup key — the symbol when truthy (non-empty),
otherwise the first 30 characters of the context. -/
def dedupKey (r : Record) : String :=
  if r.symbol ≠ "" then r.symbol else takeChars r.context 30

/-- Lines 101-107: insertion into the `seen` dict keeps the first
record per key; `list(seen.values())` preserves insertion order. -/
def dedup : List Record → List String → List Record
  | [], _ => []
  | r :: rest, seen =>
    if dedupKey r ∈ seen then dedup rest seen
    else r :: dedup rest (dedupKey r :: seen)

/-- Lines 61-107: the whole extraction pass over a parsed document. -/
def parse_rows_from_soup (root : Node) : List Record :=
  dedup (rawResults root) []

/-! ## The scan-cycle orchestrator (lines 117-150)

`scrape_tradingview_and_notify` mutates three module globals:
`last_sent` (the notification ledger, a set of `symbol|date` keys),
`last_run_results` and `last_run_time` (the snapshot).  The model
threads them through a state record.

The collaborators and Python's exception semantics are made explicit:

* `fetchRes` is the outcome of `lightweight_scrape` (line 123) — a
  parsed item list, or an exception caught by the inner
  `try`/`except` of lines 122-126;
* `send : Record → Option Bool` is one call of
  `send_telegram_message` (line 141): `some b` is a normal return
  (the function catches `Exception` around the HTTP call and returns
  a boolean), `none` is an exception escaping it (any `Exception`
  raised outside its `try` block, e.g. an allocation failure building
  the payload), which propagates to the outer handler of
  lines 149-150;
* `filterExn` injects an exception in the list comprehension of
  line 129 (Python permits e.g. `MemoryError`, an `Exception`
  subclass, at any allocation), likewise caught only by the outer
  handler.

The outer `try` of lines 120-150 encloses the snapshot assignments of
lines 146-147, so any injected exception after the inner `try` skips
them; ledger insertions already performed (line 143) survive, because
`last_sent.add` runs eagerly inside the loop. -/

structure CycleState where
  last_sent : List String
  last_run_results : List Record
  last_run_time : Nat
deriving DecidableEq

/-- Line 135: the notification key `f"{symbol}|{now_date}"`. -/
def mkKey (symbol today : String) : String :=
  symbol ++ "|" ++ today

/-- Result of the notification loop of lines 132-144: the ledger after
the loop, the records for which `send_telegram_message` was invoked
(in order), and whether a send raised (aborting the loop and, with it,
the snapshot update). -/
structure LoopOut where
  sent : List String
  calls : List Record
  raised : Bool

/-- Lines 133-144: for each filtered record in order, skip it when its
key is already in the ledger, otherwise send; only a send that
returned `True` adds the key.  A raising send stops the loop at once
with the ledger as accumulated so far. -/
def notifyLoop (send : Record → Option Bool) (today : String) : List Record → List String → LoopOut
  | [], sent => ⟨sent, [], false⟩
  | it :: rest, sent =>
    if mkKey it.symbol today ∈ sent then
      notifyLoop send today rest sent
    else
      match send it with
      | none => ⟨sent, [it], true⟩
      | some true =>
        let o := notifyLoop send today rest (mkKey it.symbol today :: sent)
        ⟨o.sent, it :: o.calls, o.raised⟩
      | some false =>
        let o := notifyLoop send today rest sent
        ⟨o.sent, it :: o.calls, o.raised⟩

/-- Lines 121-126: the inner `try` around `lightweight_scrape` — a
fetch/parse failure is logged and yields the empty item list. -/
def itemsOf : Except Unit (List Record) → List Record
  | .ok items => items
  | .error _ => []

/-- Lines 117-150: one scan cycle.  Returns the state after the cycle
together with the list of records for which a send was attempted (the
model's observation of the notification collaborator).  The branches
mirror the code's control flow: an exception in the filter step or in
a send lands in the outer handler, skipping the snapshot assignments
of lines 146-147 but keeping ledger insertions already made. -/
def scrape_tradingview_and_notify (st : CycleState) (today : String) (now : Nat)
    (fetchRes : Except Unit (List Record)) (filterExn : Bool)
    (send : Record → Option Bool) : CycleState × List Record :=
  if filterExn then (st, [])
  else
    let filtered := (itemsOf fetchRes).filter (fun it => containsMarker it.context)
    let o := notifyLoop send today filtered st.last_sent
    if o.raised then
      ({ st with last_sent := o.sent }, o.calls)
    else
      ({ last_sent := o.sent, last_run_results := filtered, last_run_time := now }, o.calls)

/-- One scheduler invocation of the cycle: the date and clock reading
of the cycle, the fetch outcome, and the injected faults. -/
structure CycleInput where
  today : String
  now : Nat
  fetchRes : Except Unit (List Record)
  filterExn : Bool
  send : Record → Option Bool

/-- A whole process lifetime: cycles run in sequence over the shared
module state, collecting each cycle's send-call trace. -/
def runCycles : CycleState → List CycleInput → CycleState × List (List Record)
  | st, [] => (st, [])
  | st, inp :: rest =>
    let p := scrape_tradingview_and_notify st inp.today inp.now inp.fetchRes inp.filterExn inp.send
    let q := runCycles p.1 rest
    (q.1, p.2 :: q.2)

/-- Initial module state (lines 35-37): empty ledger, empty results,
zero timestamp. -/
def initState : CycleState :=
  ⟨[], [], 0⟩

/-! ## Snapshot replacement racing a status read (lines 146-147, 162-175)

The snapshot is replaced by two separate assignments —
`last_run_results = filtered` (line 146) and then
`last_run_time = time.time()` (line 147) — executed in a scheduler
thread, while a Flask handler thread may concurrently build its JSON
response, reading `last_run_time` first and `last_run_results` second
(the dict literals of lines 164-168 and 172-175 evaluate in that
order).  Each single assignment/read of a variable is atomic under the
interpreter lock, so the observable behaviours are the interleavings
of these four atomic steps.

The model keeps a program counter for each thread; the shared
variables are a function of the writer's counter (`wpc = 0`: both
old; `wpc = 1`: results written, time still old; `wpc = 2`: both
new), and the reader records the writer counter it observed at each of
its two reads.  `timeAt`/`resultsAt` decode those observations into
the actual values. -/

structure RWState where
  wpc : Nat
  rpc : Nat
  obsT : Option Nat
  obsR : Option Nat
deriving DecidableEq

/-- Value of `last_run_time` as a function of writer progress: written
second, so it is new only once both writer steps ran. -/
def timeAt (oldT newT : Nat) (w : Nat) : Nat :=
  if 2 ≤ w then newT else oldT

/-- Value of `last_run_results` as a function of writer progress:
written first, so it is new as soon as one writer step ran. -/
def resultsAt (oldR newR : List Record) (w : Nat) : List Record :=
  if 1 ≤ w then newR else oldR

/-- One writer step: line 146 (first step), then line 147. -/
def stepWrite (s : RWState) : RWState :=
  if s.wpc < 2 then { s with wpc := s.wpc + 1 } else s

/-- One reader step: read `last_run_time`, then read
`last_run_results`; each read records the current writer progress. -/
def stepRead (s : RWState) : RWState :=
  if s.rpc = 0 then { s with rpc := 1, obsT := some s.wpc }
  else if s.rpc = 1 then { s with rpc := 2, obsR := some s.wpc }
  else s

/-- Run a schedule: `true` schedules the writer thread for one step,
`false` the reader thread. -/
def runSched : List Bool → RWState → RWState
  | [], s => s
  | b :: rest, s => runSched rest (if b then stepWrite s else stepRead s)

/-- Both threads at their first step, nothing observed yet. -/
def initRW : RWState :=
  ⟨0, 0, none, none⟩

/-! ## Definitions following the specification's wording

These are deliberately written from the spec's sentences (not from the
code) so that the code-derived matchers can be compared against
them. -/

/-- Modelled from the spec: a number per the spec's change rule — one
or more digits, optionally a comma/dot separator followed by one or
more digits — *immediately* followed by a percent sign, as §4.1 words
it ("first match of an optionally-negative number (integer or
decimal, comma or dot separator) immediately followed by a percent
sign").  Returns the matched length at the current position. -/
def numTokSpec (cs : List Char) : Option Nat :=
  let d := digitRun cs
  if d = 0 then none
  else
    match cs.drop d with
    | c :: r2 =>
      if isSepCh c ∧ 1 ≤ digitRun r2 then
        if (r2.drop (digitRun r2)).head? = some '%' then
          some (d + 1 + digitRun r2 + 1)
        else none
      else if c = '%' then some (d + 1) else none
    | [] => none

/-- Modelled from the spec: the change pattern of §4.1 with its
optional leading minus. -/
def changeTokSpec (cs : List Char) : Option Nat :=
  match cs with
  | c :: rest => if c = '-' then (numTokSpec rest).map (· + 1) else numTokSpec (c :: rest)
  | [] => numTokSpec []

/-- Modelled from the spec: `re.search`-style leftmost match of the
spec's change rule. -/
def searchChangeSpec (s : String) : Option String :=
  (reSearch changeTokSpec s.data).map String.mk

/-- Deterministic reading of the tail `\s*%`: the maximal whitespace
run must be followed directly by a percent sign. -/
def wsTok (cs : List Char) : Option Nat :=
  match (cs.dropWhile isWsPy).head? with
  | some c => if c = '%' then some (wsRun cs + 1) else none
  | none => none

/-- Deterministic reading of the tail `(?:[\.,]\d+)?\s*%`: when a
separator with at least one digit after it is present, the whole digit
run is consumed; otherwise the whitespace/percent tail starts at
once. -/
def fracWsTok (cs : List Char) : Option Nat :=
  match cs with
  | c :: r2 =>
    if isSepCh c then
      if 1 ≤ digitRun r2 then
        (wsTok (r2.drop (digitRun r2))).map (fun w => 1 + digitRun r2 + w)
      else none
    else wsTok (c :: r2)
  | [] => none

/-- Amended change rule, deterministic form: the whole leading digit
run (which must have one to three digits), then the optional
fractional part, then optional whitespace, then the percent sign. -/
def numTokAmended (cs : List Char) : Option Nat :=
  let d := digitRun cs
  if d = 0 ∨ 3 < d then none
  else (fracWsTok (cs.drop d)).map (fun w => d + w)

/-- Amended change rule with its optional leading minus. -/
def changeTokAmended (cs : List Char) : Option Nat :=
  match cs with
  | c :: rest => if c = '-' then (numTokAmended rest).map (· + 1) else numTokAmended (c :: rest)
  | [] => numTokAmended []

/-- Modelled from the spec (as amended): leftmost match of the amended
change rule. -/
def searchChangeAmended (s : String) : Option String :=
  (reSearch changeTokAmended s.data).map String.mk

/-- Modelled from the spec: §3's dedup invariant — keep each record
whose key has not been seen among the earlier records, i.e. retain the
first occurrence of every key, in first-seen order. -/
def keepFirstByKey : List Record → List Record
  | [] => []
  | r :: rest => r :: keepFirstByKey (rest.filter (fun x => dedupKey x != dedupKey r))
termination_by l => l.length
decreasing_by
  simp only [List.length_cons]
  exact Nat.lt_succ_of_le (List.length_filter_le _ _)

/-! ## Character-class disjointness facts used to collapse backtracking -/


theorem wsPy_ne_pct {c : Char} (h : isWsPy c = true) : (c = '%') = False := by
  simp only [isWsPy, Bool.or_eq_true, decide_eq_true_eq] at h
  rcases h with ((((h | h) | h) | h) | h) | h <;> subst h <;> simp

theorem digit_not_ws {c : Char} (h : c.isDigit = true) : isWsPy c = false := by
  simp only [Char.isDigit] at h
  simp only [isWsPy, Bool.or_eq_false_iff, decide_eq_false_iff_not]
  refine ⟨⟨⟨⟨⟨?_, ?_⟩, ?_⟩, ?_⟩, ?_⟩, ?_⟩ <;> rintro rfl <;> simp_all

theorem digit_ne_pct {c : Char} (h : c.isDigit = true) : (c = '%') = False := by
  simp only [Char.isDigit] at h
  simp only [eq_iff_iff, iff_false]
  rintro rfl; simp_all

theorem digit_not_sep {c : Char} (h : c.isDigit = true) : isSepCh c = false := by
  simp only [Char.isDigit] at h
  simp only [isSepCh, Bool.or_eq_false_iff, decide_eq_false_iff_not]
  constructor <;> rintro rfl <;> simp_all

theorem sep_not_ws {c : Char} (h : isSepCh c = true) : isWsPy c = false := by
  simp only [isSepCh, Bool.or_eq_true, decide_eq_true_eq] at h
  rcases h with h | h <;> subst h <;> decide

theorem sep_ne_pct {c : Char} (h : isSepCh c = true) : (c = '%') = False := by
  simp only [isSepCh, Bool.or_eq_true, decide_eq_true_eq] at h
  rcases h with h | h <;> subst h <;> decide

theorem starC_collapse (p : Char → Bool) (cont : List Char → Option Nat)
    (h : ∀ c cs, p c = true → cont (c :: cs) = none) :
    ∀ cs, starC p cont cs = (cont (cs.dropWhile p)).map (· + (cs.takeWhile p).length) := by
  intro cs
  induction cs with
  | nil =>
    simp only [starC, List.dropWhile_nil, List.takeWhile_nil, List.length_nil]
    cases cont [] <;> simp
  | cons c rest ih =>
    by_cases hp : p c = true
    · rw [starC, if_pos hp, ih]
      rw [List.dropWhile_cons, if_pos hp, List.takeWhile_cons, if_pos hp]
      cases hc : cont (rest.dropWhile p) with
      | none => simp [h c _ hp]
      | some v => simp [List.length_cons]; omega
    · rw [starC, if_neg hp]
      rw [List.dropWhile_cons, if_neg hp, List.takeWhile_cons, if_neg hp]
      cases cont (c :: rest) <;> simp

theorem wsPctC_eq (cs : List Char) : wsPctC cs = wsTok cs := by
  rw [wsPctC, starC_collapse isWsPy pctC]
  · rw [wsTok, wsRun]
    cases hd : (cs.dropWhile isWsPy) with
    | nil => simp [pctC, charC]
    | cons c r =>
      simp only [List.head?_cons]
      by_cases hc : c = '%'
      · subst hc
        simp [pctC, charC]
        omega
      · simp [pctC, charC, hc]
  · intro c cs' hc
    simp [pctC, charC, wsPy_ne_pct hc]

theorem wsTok_digit_head (c : Char) (r : List Char) (h : c.isDigit = true) :
    wsTok (c :: r) = none := by
  rw [wsTok, List.dropWhile_cons, if_neg (by simp [digit_not_ws h])]
  simp [digit_ne_pct h]

theorem dropWhile_eq_drop_len (p : Char → Bool) :
    ∀ l : List Char, l.dropWhile p = l.drop ((l.takeWhile p).length) := by
  intro l
  induction l with
  | nil => simp
  | cons c rest ih =>
    by_cases hp : p c = true
    · rw [List.dropWhile_cons, if_pos hp, List.takeWhile_cons, if_pos hp]
      simpa using ih
    · rw [List.dropWhile_cons, if_neg hp, List.takeWhile_cons, if_neg hp]
      simp

theorem digitsWsPctC_eq (cs : List Char) :
    digitsWsPctC cs =
      (if 1 ≤ digitRun cs then
        (wsTok (cs.drop (digitRun cs))).map (fun w => digitRun cs + w)
      else none) := by
  rw [digitsWsPctC]
  cases cs with
  | nil => simp [charC, digitRun]
  | cons c rest =>
    by_cases hd : c.isDigit = true
    · rw [charC, if_pos hd]
      rw [starC_collapse Char.isDigit wsPctC
        (fun c' cs' hc' => by rw [wsPctC_eq]; exact wsTok_digit_head c' cs' hc')]
      rw [wsPctC_eq]
      have hrun : digitRun (c :: rest) = digitRun rest + 1 := by
        simp [digitRun, List.takeWhile_cons, hd]
      rw [hrun]
      have hdrop : (c :: rest).drop (digitRun rest + 1) = rest.drop (digitRun rest) := by
        simp [List.drop_succ_cons]
      rw [hdrop]
      rw [dropWhile_eq_drop_len Char.isDigit rest]
      rw [if_pos (by omega)]
      simp only [digitRun]
      cases h : wsTok (rest.drop ((rest.takeWhile Char.isDigit).length)) with
      | none => simp [h]
      | some w => simp [h]; omega
    · rw [charC, if_neg hd]
      have : digitRun (c :: rest) = 0 := by
        simp [digitRun, List.takeWhile_cons, hd]
      simp [this]

theorem wsTok_sep_head (c : Char) (r : List Char) (h : isSepCh c = true) :
    wsTok (c :: r) = none := by
  rw [wsTok, List.dropWhile_cons, if_neg (by simp [sep_not_ws h])]
  simp [sep_ne_pct h]

theorem fracWsPctC_eq (cs : List Char) : fracWsPctC cs = fracWsTok cs := by
  rw [fracWsPctC, optC]
  cases cs with
  | nil => simp [charC, fracWsTok, wsPctC_eq, wsTok]
  | cons c r2 =>
    by_cases hs : isSepCh c = true
    · rw [charC, if_pos hs, digitsWsPctC_eq]
      by_cases hf : 1 ≤ digitRun r2
      · rw [if_pos hf]
        rw [fracWsTok, if_pos hs, if_pos hf]
        cases h : wsTok (r2.drop (digitRun r2)) with
        | none => simp [h, wsPctC_eq, wsTok_sep_head c r2 hs]
        | some w => simp [h]; omega
      · rw [if_neg hf]
        simp only [Option.map_none']
        rw [wsPctC_eq, wsTok_sep_head c r2 hs, fracWsTok, if_pos hs, if_neg hf]
    · rw [charC, if_neg hs]
      simp only [Option.map_none']
      rw [wsPctC_eq, fracWsTok, if_neg hs]

theorem fracWsTok_digit_head (c : Char) (r : List Char) (h : c.isDigit = true) :
    fracWsTok (c :: r) = none := by
  rw [fracWsTok, if_neg (by simp [digit_not_sep h]), wsTok_digit_head c r h]

theorem fracWsTok_nil : fracWsTok [] = none := rfl

theorem numChangeC_eq (cs : List Char) : numChangeC cs = numTokAmended cs := by
  rw [numChangeC, numTokAmended]
  cases cs with
  | nil => simp [charC, digitRun]
  | cons c1 r1 =>
    by_cases h1 : c1.isDigit = true
    · rw [charC, if_pos h1]
      cases r1 with
      | nil =>
        have hd : digitRun [c1] = 1 := by simp [digitRun, List.takeWhile_cons, h1]
        rw [hd]
        simp [optC, charC, fracWsPctC_eq, fracWsTok_nil]
      | cons c2 r2 =>
        by_cases h2 : c2.isDigit = true
        · cases r2 with
          | nil =>
            have hd : digitRun [c1, c2] = 2 := by
              simp [digitRun, List.takeWhile_cons, h1, h2]
            rw [hd]
            simp [optC, charC, if_pos h2, fracWsPctC_eq, fracWsTok_nil,
              fracWsTok_digit_head c2 [] h2]
          | cons c3 r3 =>
            by_cases h3 : c3.isDigit = true
            · cases hr3 : r3 with
              | nil =>
                have hd : digitRun [c1, c2, c3] = 3 := by
                  simp [digitRun, List.takeWhile_cons, h1, h2, h3]
                rw [hd]
                simp [optC, charC, if_pos h2, if_pos h3, fracWsPctC_eq, fracWsTok_nil,
                  fracWsTok_digit_head c2 _ h2, fracWsTok_digit_head c3 _ h3]
              | cons c4 r4 =>
                by_cases h4 : c4.isDigit = true
                · have hd : 3 < digitRun (c1 :: c2 :: c3 :: c4 :: r4) := by
                    simp [digitRun, List.takeWhile_cons, h1, h2, h3, h4]
                    try omega
                  rw [if_pos (Or.inr hd)]
                  simp [optC, charC, if_pos h2, if_pos h3, if_pos h4, fracWsPctC_eq,
                    fracWsTok_digit_head c2 _ h2, fracWsTok_digit_head c3 _ h3,
                    fracWsTok_digit_head c4 _ h4]
                · have hd : digitRun (c1 :: c2 :: c3 :: c4 :: r4) = 3 := by
                    simp [digitRun, List.takeWhile_cons, h1, h2, h3, h4]
                  rw [hd]
                  rw [if_neg (by omega)]
                  simp only [List.drop_succ_cons, List.drop_zero]
                  cases hf : fracWsTok (c4 :: r4) with
                  | none =>
                    simp [optC, charC, if_pos h2, if_pos h3, h4, fracWsPctC_eq, hf,
                      fracWsTok_digit_head c2 _ h2, fracWsTok_digit_head c3 _ h3]
                  | some v =>
                    simp [optC, charC, if_pos h2, if_pos h3, fracWsPctC_eq, hf,
                      fracWsTok_digit_head c2 _ h2, fracWsTok_digit_head c3 _ h3]
                    try omega
            · have hd : digitRun (c1 :: c2 :: c3 :: r3) = 2 := by
                simp [digitRun, List.takeWhile_cons, h1, h2, h3]
              rw [hd]
              rw [if_neg (by omega)]
              simp only [List.drop_succ_cons, List.drop_zero]
              cases hf : fracWsTok (c3 :: r3) with
              | none =>
                simp [optC, charC, if_pos h2, h3, fracWsPctC_eq, hf,
                  fracWsTok_digit_head c2 _ h2]
              | some v =>
                simp [optC, charC, if_pos h2, h3, fracWsPctC_eq, hf,
                  fracWsTok_digit_head c2 _ h2]
                omega
        · have hd : digitRun (c1 :: c2 :: r2) = 1 := by
            simp [digitRun, List.takeWhile_cons, h1, h2]
          rw [hd]
          rw [if_neg (by omega)]
          simp only [List.drop_succ_cons, List.drop_zero]
          cases hf : fracWsTok (c2 :: r2) with
          | none => simp [optC, charC, h2, fracWsPctC_eq, hf]
          | some v => simp [optC, charC, h2, fracWsPctC_eq, hf]; omega
    · rw [charC, if_neg h1]
      have hd : digitRun (c1 :: r1) = 0 := by
        simp [digitRun, List.takeWhile_cons, h1]
      simp [hd]

theorem changeM_eq (cs : List Char) : changeM cs = changeTokAmended cs := by
  rw [changeM, optC, changeTokAmended.eq_def]
  cases cs with
  | nil => simp [charC, numChangeC_eq]
  | cons c rest =>
    dsimp only
    by_cases hm : c = '-'
    · subst hm
      rw [charC, if_pos (by decide), if_pos rfl]
      cases hn : numChangeC rest with
      | none =>
        rw [numChangeC_eq] at hn
        have hd : numChangeC ('-' :: rest) = none := by
          rw [numChangeC_eq, numTokAmended]
          have h0 : digitRun ('-' :: rest) = 0 := by
            simp [digitRun, List.takeWhile_cons]
          simp [h0]
        simp only [hn, Option.map_none']
        rw [numChangeC_eq]
        exact hd
      | some n =>
        rw [numChangeC_eq] at hn
        simp [hn]
    · rw [charC, if_neg (by simpa using hm), if_neg hm]
      simp [numChangeC_eq]

theorem reSearch_congr (m1 m2 : List Char → Option Nat) (h : ∀ cs, m1 cs = m2 cs) :
    ∀ cs, reSearch m1 cs = reSearch m2 cs := by
  intro cs
  induction cs with
  | nil => rw [reSearch, reSearch, h []]
  | cons c rest ih =>
    rw [reSearch, reSearch, h (c :: rest)]
    cases m2 (c :: rest) <;> simp [ih]

theorem searchChange_eq_amended (s : String) : searchChange s = searchChangeAmended s := by
  rw [searchChange, searchChangeAmended, reSearch_congr changeM changeTokAmended changeM_eq]

/-! ## Dedup, walk, and symbol-field lemmas -/


theorem keepFirstByKey_nil : keepFirstByKey [] = [] := by
  rw [keepFirstByKey]

theorem keepFirstByKey_cons (r : Record) (l : List Record) :
    keepFirstByKey (r :: l) = r :: keepFirstByKey (l.filter (fun x => dedupKey x != dedupKey r)) := by
  rw [keepFirstByKey]

theorem dedup_eq_keepFirst (rs : List Record) :
    ∀ seen, dedup rs seen = keepFirstByKey (rs.filter (fun r => !(decide (dedupKey r ∈ seen)))) := by
  induction rs with
  | nil => intro seen; rw [dedup, List.filter_nil, keepFirstByKey_nil]
  | cons r rest ih =>
    intro seen
    by_cases h : dedupKey r ∈ seen
    · rw [dedup, if_pos h, List.filter_cons_of_neg (by simp [h]), ih]
    · rw [dedup, if_neg h, List.filter_cons_of_pos (by simp [h]), keepFirstByKey_cons,
        ih (dedupKey r :: seen), List.filter_filter]
      congr 1
      apply congrArg
      apply List.filter_congr
      intro x _
      simp [List.mem_cons]
      tauto

theorem mem_keepFirst (x : Record) : ∀ l : List Record, x ∈ keepFirstByKey l → x ∈ l := by
  intro l
  induction l using keepFirstByKey.induct with
  | case1 => simp [keepFirstByKey_nil]
  | case2 r rest ih =>
    rw [keepFirstByKey_cons]
    intro hx
    rcases List.mem_cons.mp hx with h | h
    · exact h ▸ List.mem_cons_self _ _
    · exact List.mem_cons_of_mem _ (List.mem_of_mem_filter (ih h))

theorem keepFirst_pairwise : ∀ l : List Record,
    (keepFirstByKey l).Pairwise (fun a b => dedupKey a ≠ dedupKey b) := by
  intro l
  induction l using keepFirstByKey.induct with
  | case1 => simp [keepFirstByKey_nil]
  | case2 r rest ih =>
    rw [keepFirstByKey_cons]
    refine List.Pairwise.cons ?_ ih
    intro b hb
    have := List.of_mem_filter (mem_keepFirst b _ hb)
    simpa [bne_iff_ne, ne_comm] using this

theorem parse_eq_keepFirst (root : Node) :
    parse_rows_from_soup root = keepFirstByKey (rawResults root) := by
  rw [parse_rows_from_soup, dedup_eq_keepFirst]
  congr 1
  apply (List.filter_eq_self).mpr
  intro a _
  simp

theorem mem_dedup_sub (x : Record) : ∀ (rs : List Record) (seen : List String),
    x ∈ dedup rs seen → x ∈ rs := by
  intro rs
  induction rs with
  | nil => intro seen h; simp [dedup] at h
  | cons r rest ih =>
    intro seen h
    rw [dedup] at h
    by_cases hk : dedupKey r ∈ seen
    · rw [if_pos hk] at h
      exact List.mem_cons_of_mem _ (ih _ h)
    · rw [if_neg hk] at h
      rcases List.mem_cons.mp h with h | h
      · exact h ▸ List.mem_cons_self _ _
      · exact List.mem_cons_of_mem _ (ih _ h)

theorem mem_raw_buildRecord (root : Node) (r : Record) (h : r ∈ rawResults root) :
    r = buildRecord r.context := by
  rw [rawResults] at h
  rcases List.mem_filterMap.mp h with ⟨p, _, hp⟩
  rcases Option.map_eq_some'.mp hp with ⟨parent, _, hb⟩
  rw [← hb]
  simp [buildRecord]

theorem lenFilterMap {α β : Type} (f : α → Option β) :
    ∀ l : List α, (l.filterMap f).length = (l.filter (fun x => (f x).isSome)).length := by
  intro l
  induction l with
  | nil => simp
  | cons a l ih =>
    cases hf : f a with
    | none => simp [List.filterMap_cons, hf, List.filter_cons, ih]
    | some b => simp [List.filterMap_cons, hf, List.filter_cons, ih]

theorem climb_none_iff : ∀ (n : Nat) (ch : List Node),
    climb n ch = none ↔ ch.length ≤ n ∧ ∀ c ∈ ch, isContainer c = false := by
  intro n
  induction n with
  | zero =>
    intro ch
    cases ch with
    | nil => simp [climb]
    | cons p rest => simp [climb]
  | succ n ih =>
    intro ch
    cases ch with
    | nil => simp [climb]
    | cons p rest =>
      by_cases hp : isContainer p = true
      · simp [climb, hp]
      · rw [climb, if_neg hp, ih rest]
        simp only [List.length_cons, List.mem_cons]
        constructor
        · rintro ⟨h1, h2⟩
          refine ⟨by omega, ?_⟩
          rintro c (rfl | hc)
          · simpa using hp
          · exact h2 c hc
        · rintro ⟨h1, h2⟩
          exact ⟨by omega, fun c hc => h2 c (Or.inr hc)⟩

theorem rawResults_length (root : Node) :
    (rawResults root).length =
      ((candidateChains root).filter (fun p => (climb 5 p.2).isSome)).length := by
  rw [rawResults, lenFilterMap]
  congr 1
  apply List.filter_congr
  intro p _
  exact Option.isSome_map'

theorem firstSomeDown_some (f : Nat → Option Nat) :
    ∀ n v, firstSomeDown f n = some v → ∃ i, i ≤ n ∧ f i = some v := by
  intro n
  induction n with
  | zero => intro v h; exact ⟨0, Nat.le_refl 0, h⟩
  | succ n ih =>
    intro v h
    rw [firstSomeDown] at h
    cases hf : f (n + 1) with
    | some w => rw [hf] at h; exact ⟨n + 1, Nat.le_refl _, by rw [hf, ← h]⟩
    | none =>
      rw [hf] at h
      rcases ih v h with ⟨i, hi, hfi⟩
      exact ⟨i, Nat.le_succ_of_le hi, hfi⟩

theorem symM_pos (cs : List Char) (n : Nat) (h : symM cs = some n) : 1 ≤ n ∧ cs ≠ [] := by
  have hnil : symRun ([] : List Char) = 0 := by simp [symRun]
  have hrun : 2 ≤ symRun cs → cs ≠ [] := by
    rintro hr rfl
    omega
  rw [symM] at h
  cases hb : symBranch1 cs with
  | some m =>
    rw [hb] at h
    injection h with h
    subst h
    rw [symBranch1] at hb
    rcases firstSomeDown_some _ _ _ hb with ⟨i, _, hfi⟩
    by_cases hg : 2 ≤ i ∧ i ≤ min (symRun cs) 20
    · rw [if_pos hg] at hfi
      have hcs : cs ≠ [] := hrun (by omega)
      cases hm1 : matchCS [ '/', 'U', 'S', 'D', 'T' ] (cs.drop i) with
      | some _ =>
        rw [hm1] at hfi
        injection hfi with hfi
        exact ⟨by omega, hcs⟩
      | none =>
        rw [hm1] at hfi
        cases hm2 : matchCS [ 'U', 'S', 'D', 'T' ] (cs.drop i) with
        | some _ =>
          rw [hm2] at hfi
          injection hfi with hfi
          exact ⟨by omega, hcs⟩
        | none => rw [hm2] at hfi; exact absurd hfi (by simp)
    · rw [if_neg hg] at hfi
      exact absurd hfi (by simp)
  | none =>
    rw [hb] at h
    by_cases hr : 2 ≤ symRun cs
    · rw [if_pos hr] at h
      injection h with h
      exact ⟨by omega, hrun hr⟩
    · rw [if_neg hr] at h
      exact absurd h (by simp)

theorem reSearch_some (m : List Char → Option Nat) :
    ∀ cs l, reSearch m cs = some l →
      ∃ i n, m (cs.drop i) = some n ∧ l = (cs.drop i).take n := by
  intro cs
  induction cs with
  | nil =>
    intro l h
    rw [reSearch] at h
    cases hm : m [] with
    | none => rw [hm] at h; exact absurd h (by simp)
    | some n =>
      rw [hm] at h
      injection h with h
      exact ⟨0, n, by simpa using hm, by simp [← h]⟩
  | cons c rest ih =>
    intro l h
    rw [reSearch] at h
    cases hm : m (c :: rest) with
    | some n =>
      rw [hm] at h
      injection h with h
      exact ⟨0, n, by simpa using hm, by simp [← h]⟩
    | none =>
      rw [hm] at h
      rcases ih l h with ⟨i, n, hmn, hl⟩
      exact ⟨i + 1, n, by simpa using hmn, by simpa using hl⟩

theorem symM_nil : symM [] = none := by
  have hnil : symRun ([] : List Char) = 0 := by simp [symRun]
  rw [symM, symBranch1, hnil]
  simp [firstSomeDown]

theorem searchSymbol_ne_empty (t : String) (m : String) (h : searchSymbol t = some m) :
    m ≠ "" := by
  rw [searchSymbol] at h
  rcases Option.map_eq_some'.mp h with ⟨l, hl, hm⟩
  rcases reSearch_some symM _ _ hl with ⟨i, n, hmn, hln⟩
  have hpos := symM_pos _ _ hmn
  subst hm
  subst hln
  intro hemp
  have : (List.take n (t.data.drop i)) = [] := by
    have := congrArg String.data hemp
    simpa using this
  rcases List.take_eq_nil_iff.mp this with h0 | h0
  · omega
  · exact absurd h0 hpos.2

theorem symField_empty_iff (t : String) :
    symField t = "" ↔ searchSymbol t = none ∧ t ≠ "" ∧ firstPipeSeg t = "" := by
  rw [symField]
  cases hs : searchSymbol t with
  | some m =>
    simp only [reduceCtorEq, false_and, iff_false]
    exact searchSymbol_ne_empty t m hs
  | none =>
    by_cases ht : t = ""
    · simp [ht]
    · simp [ht]

/-! ## Notification-loop and cycle lemmas -/


theorem notifyLoop_mono (send : Record → Option Bool) (today : String) (k : String) :
    ∀ (l : List Record) (sent : List String), k ∈ sent →
      k ∈ (notifyLoop send today l sent).sent := by
  intro l
  induction l with
  | nil => intro sent h; simpa [notifyLoop] using h
  | cons it rest ih =>
    intro sent h
    rw [notifyLoop]
    by_cases hk : mkKey it.symbol today ∈ sent
    · rw [if_pos hk]; exact ih sent h
    · rw [if_neg hk]
      cases send it with
      | none => exact h
      | some b =>
        cases b
        · exact ih sent h
        · exact ih _ (List.mem_cons_of_mem _ h)

theorem notifyLoop_calls_new (send : Record → Option Bool) (today : String) :
    ∀ (l : List Record) (sent : List String) (r : Record),
      r ∈ (notifyLoop send today l sent).calls →
      mkKey r.symbol today ∉ sent := by
  intro l
  induction l with
  | nil => intro sent r h; simp [notifyLoop] at h
  | cons it rest ih =>
    intro sent r h
    rw [notifyLoop] at h
    by_cases hk : mkKey it.symbol today ∈ sent
    · rw [if_pos hk] at h
      exact ih sent r h
    · rw [if_neg hk] at h
      cases hsend : send it with
      | none =>
        rw [hsend] at h
        dsimp only at h
        simp only [List.mem_singleton] at h
        exact h ▸ hk
      | some b =>
        rw [hsend] at h
        cases b
        · dsimp only at h
          rcases List.mem_cons.mp h with rfl | h
          · exact hk
          · exact ih sent r h
        · dsimp only at h
          rcases List.mem_cons.mp h with rfl | h
          · exact hk
          · intro hmem
            exact ih _ r h (List.mem_cons_of_mem _ hmem)

theorem notifyLoop_success_adds (send : Record → Option Bool) (today : String) :
    ∀ (l : List Record) (sent : List String) (r : Record),
      r ∈ (notifyLoop send today l sent).calls → send r = some true →
      mkKey r.symbol today ∈ (notifyLoop send today l sent).sent := by
  intro l
  induction l with
  | nil => intro sent r h _; simp [notifyLoop] at h
  | cons it rest ih =>
    intro sent r h hs
    rw [notifyLoop] at h ⊢
    by_cases hk : mkKey it.symbol today ∈ sent
    · rw [if_pos hk] at h ⊢
      exact ih sent r h hs
    · rw [if_neg hk] at h ⊢
      cases hsend : send it with
      | none =>
        rw [hsend] at h
        simp only [List.mem_singleton] at h
        subst h
        rw [hsend] at hs
        exact absurd hs (by simp)
      | some b =>
        rw [hsend] at h
        cases b
        · rcases List.mem_cons.mp h with rfl | h
          · rw [hsend] at hs; exact absurd hs (by simp)
          · exact ih sent r h hs
        · rcases List.mem_cons.mp h with rfl | h
          · exact notifyLoop_mono send today _ rest _ (List.mem_cons_self _ _)
          · exact ih _ r h hs

theorem notifyLoop_sent_from (send : Record → Option Bool) (today : String) (k : String) :
    ∀ (l : List Record) (sent : List String),
      k ∈ (notifyLoop send today l sent).sent →
      k ∈ sent ∨ ∃ it, it ∈ l ∧ mkKey it.symbol today = k ∧ send it = some true := by
  intro l
  induction l with
  | nil => intro sent h; simp [notifyLoop] at h; exact Or.inl h
  | cons it rest ih =>
    intro sent h
    rw [notifyLoop] at h
    by_cases hk : mkKey it.symbol today ∈ sent
    · rw [if_pos hk] at h
      rcases ih sent h with h | ⟨it', hmem, hkey, hsend⟩
      · exact Or.inl h
      · exact Or.inr ⟨it', List.mem_cons_of_mem _ hmem, hkey, hsend⟩
    · rw [if_neg hk] at h
      cases hsend : send it with
      | none => rw [hsend] at h; exact Or.inl h
      | some b =>
        rw [hsend] at h
        cases b
        · rcases ih sent h with h | ⟨it', hmem, hkey, hs⟩
          · exact Or.inl h
          · exact Or.inr ⟨it', List.mem_cons_of_mem _ hmem, hkey, hs⟩
        · rcases ih _ h with h | ⟨it', hmem, hkey, hs⟩
          · rcases List.mem_cons.mp h with rfl | h
            · exact Or.inr ⟨it, List.mem_cons_self _ _, rfl, hsend⟩
            · exact Or.inl h
          · exact Or.inr ⟨it', List.mem_cons_of_mem _ hmem, hkey, hs⟩

theorem notifyLoop_called_when_new (send : Record → Option Bool) (today : String) :
    ∀ (l : List Record) (sent : List String) (it : Record),
      (∀ r, send r ≠ none) → it ∈ l →
      l.Pairwise (fun a b => mkKey a.symbol today ≠ mkKey b.symbol today) →
      mkKey it.symbol today ∉ sent →
      it ∈ (notifyLoop send today l sent).calls := by
  intro l
  induction l with
  | nil => intro sent it _ h; simp at h
  | cons x rest ih =>
    intro sent it hnr hmem hpw hnew
    rw [notifyLoop]
    rcases List.mem_cons.mp hmem with rfl | hmem
    · rw [if_neg hnew]
      cases hsend : send it with
      | none => exact absurd hsend (hnr it)
      | some b => cases b <;> exact List.mem_cons_self _ _
    · have hne : mkKey x.symbol today ≠ mkKey it.symbol today :=
        (List.pairwise_cons.mp hpw).1 it hmem
      by_cases hk : mkKey x.symbol today ∈ sent
      · rw [if_pos hk]
        exact ih sent it hnr hmem (List.pairwise_cons.mp hpw).2 hnew
      · rw [if_neg hk]
        cases hsend : send x with
        | none => exact absurd hsend (hnr x)
        | some b =>
          cases b
          · exact List.mem_cons_of_mem _ (ih sent it hnr hmem (List.pairwise_cons.mp hpw).2 hnew)
          · refine List.mem_cons_of_mem _ (ih _ it hnr hmem (List.pairwise_cons.mp hpw).2 ?_)
            intro hc
            rcases List.mem_cons.mp hc with hc | hc
            · exact hne hc.symm
            · exact hnew hc

theorem notifyLoop_no_raise (send : Record → Option Bool) (today : String)
    (hnr : ∀ r, send r ≠ none) :
    ∀ (l : List Record) (sent : List String),
      (notifyLoop send today l sent).raised = false := by
  intro l
  induction l with
  | nil => intro sent; rw [notifyLoop]
  | cons it rest ih =>
    intro sent
    rw [notifyLoop]
    by_cases hk : mkKey it.symbol today ∈ sent
    · rw [if_pos hk]; exact ih sent
    · rw [if_neg hk]
      cases hsend : send it with
      | none => exact absurd hsend (hnr it)
      | some b => cases b <;> exact ih _

theorem scrape_mono (st : CycleState) (today : String) (now : Nat)
    (fr : Except Unit (List Record)) (fe : Bool) (send : Record → Option Bool)
    (k : String) (h : k ∈ st.last_sent) :
    k ∈ (scrape_tradingview_and_notify st today now fr fe send).1.last_sent := by
  rw [scrape_tradingview_and_notify]
  cases fe
  · dsimp only
    cases hr : (notifyLoop send today ((itemsOf fr).filter (fun it => containsMarker it.context)) st.last_sent).raised
    · simp only [hr, Bool.false_eq_true, if_false]
      exact notifyLoop_mono send today k _ _ h
    · simp only [hr, if_true]
      exact notifyLoop_mono send today k _ _ h
  · simpa using h

theorem scrape_calls_new (st : CycleState) (today : String) (now : Nat)
    (fr : Except Unit (List Record)) (fe : Bool) (send : Record → Option Bool)
    (r : Record) (h : r ∈ (scrape_tradingview_and_notify st today now fr fe send).2) :
    mkKey r.symbol today ∉ st.last_sent := by
  rw [scrape_tradingview_and_notify] at h
  cases fe
  · dsimp only at h
    cases hr : (notifyLoop send today ((itemsOf fr).filter (fun it => containsMarker it.context)) st.last_sent).raised
    · rw [hr] at h
      simp only [Bool.false_eq_true, if_false] at h
      exact notifyLoop_calls_new send today _ _ r h
    · rw [hr] at h
      simp only [if_true] at h
      exact notifyLoop_calls_new send today _ _ r h
  · simp at h

theorem scrape_success_adds (st : CycleState) (today : String) (now : Nat)
    (fr : Except Unit (List Record)) (fe : Bool) (send : Record → Option Bool)
    (r : Record) (h : r ∈ (scrape_tradingview_and_notify st today now fr fe send).2)
    (hs : send r = some true) :
    mkKey r.symbol today ∈ (scrape_tradingview_and_notify st today now fr fe send).1.last_sent := by
  rw [scrape_tradingview_and_notify] at h ⊢
  cases fe
  · dsimp only at h ⊢
    cases hr : (notifyLoop send today ((itemsOf fr).filter (fun it => containsMarker it.context)) st.last_sent).raised
    · rw [hr] at h
      simp only [Bool.false_eq_true, if_false] at h ⊢
      exact notifyLoop_success_adds send today _ _ r h hs
    · rw [hr] at h
      simp only [if_true] at h ⊢
      exact notifyLoop_success_adds send today _ _ r h hs
  · simp at h

theorem runCycles_no_call_of_marked (k : String) :
    ∀ (ins : List CycleInput) (st : CycleState), k ∈ st.last_sent →
      ∀ (j : Nat) (inj : CycleInput), ins[j]? = some inj →
      ∀ r, r ∈ ((runCycles st ins).2[j]?.getD []) → mkKey r.symbol inj.today ≠ k := by
  intro ins
  induction ins with
  | nil => intro st hst j inj hj; simp at hj
  | cons inp rest ih =>
    intro st hst j inj hj r hr hkey
    cases j with
    | zero =>
      rw [List.getElem?_cons_zero] at hj
      injection hj with hj
      subst hj
      rw [runCycles] at hr
      dsimp only at hr
      rw [List.getElem?_cons_zero] at hr
      dsimp only [Option.getD_some] at hr
      exact scrape_calls_new st _ _ _ _ _ r hr (hkey ▸ hst)
    | succ jj =>
      rw [List.getElem?_cons_succ] at hj
      rw [runCycles] at hr
      dsimp only at hr
      rw [List.getElem?_cons_succ] at hr
      exact ih _ (scrape_mono st inp.today inp.now inp.fetchRes inp.filterExn inp.send k hst)
        jj inj hj r hr hkey

theorem runCycles_success_then_silent :
    ∀ (ins : List CycleInput) (st : CycleState) (i j : Nat), i < j →
      ∀ (ini inj : CycleInput), ins[i]? = some ini → ins[j]? = some inj →
      ∀ (r r' : Record), r ∈ ((runCycles st ins).2[i]?.getD []) →
      ini.send r = some true → inj.today = ini.today → r'.symbol = r.symbol →
      r' ∉ ((runCycles st ins).2[j]?.getD []) := by
  intro ins
  induction ins with
  | nil => intro st i j _ ini inj hi; simp at hi
  | cons inp rest ih =>
    intro st i j hij ini inj hi hj r r' hcall hsucc hday hsym hr'
    cases i with
    | zero =>
      rw [List.getElem?_cons_zero] at hi
      injection hi with hi
      subst hi
      rw [runCycles] at hcall
      dsimp only at hcall
      rw [List.getElem?_cons_zero] at hcall
      dsimp only [Option.getD_some] at hcall
      have hmem : mkKey r.symbol inp.today ∈
          (scrape_tradingview_and_notify st inp.today inp.now inp.fetchRes inp.filterExn inp.send).1.last_sent :=
        scrape_success_adds st _ _ _ _ _ r hcall hsucc
      cases j with
      | zero => omega
      | succ jj =>
        rw [List.getElem?_cons_succ] at hj
        rw [runCycles] at hr'
        dsimp only at hr'
        rw [List.getElem?_cons_succ] at hr'
        refine runCycles_no_call_of_marked (mkKey r.symbol inp.today) rest _ hmem jj inj hj r' hr' ?_
        rw [hday, hsym]
    | succ ii =>
      cases j with
      | zero => omega
      | succ jj =>
        rw [List.getElem?_cons_succ] at hi hj
        rw [runCycles] at hcall hr'
        dsimp only at hcall hr'
        rw [List.getElem?_cons_succ] at hcall hr'
        exact ih _ ii jj (by omega) ini inj hi hj r r' hcall hsucc hday hsym hr'

theorem pairwise_key_inj (today : String) :
    ∀ (l : List Record),
      l.Pairwise (fun a b => mkKey a.symbol today ≠ mkKey b.symbol today) →
      ∀ a b, a ∈ l → b ∈ l → mkKey a.symbol today = mkKey b.symbol today → a = b := by
  intro l
  induction l with
  | nil => intro _ a b ha; simp at ha
  | cons x rest ih =>
    intro hpw a b ha hb hk
    rcases List.mem_cons.mp ha with ha1 | ha1 <;> rcases List.mem_cons.mp hb with hb1 | hb1
    · rw [ha1, hb1]
    · subst ha1; exact absurd hk ((List.pairwise_cons.mp hpw).1 b hb1)
    · subst hb1; exact absurd hk.symm ((List.pairwise_cons.mp hpw).1 a ha1)
    · exact ih (List.pairwise_cons.mp hpw).2 a b ha1 hb1 hk

theorem notifyLoop_new_key_iff (send : Record → Option Bool) (today : String)
    (l : List Record) (sent : List String) (it : Record)
    (hnr : ∀ r, send r ≠ none) (hmem : it ∈ l)
    (hpw : l.Pairwise (fun a b => mkKey a.symbol today ≠ mkKey b.symbol today))
    (hnew : mkKey it.symbol today ∉ sent) :
    mkKey it.symbol today ∈ (notifyLoop send today l sent).sent ↔ send it = some true := by
  constructor
  · intro h
    rcases notifyLoop_sent_from send today _ l sent h with h | ⟨it', hmem', hkey, hs⟩
    · exact absurd h hnew
    · rw [pairwise_key_inj today l hpw it' it hmem' hmem hkey] at hs
      exact hs
  · intro h
    exact notifyLoop_success_adds send today l sent it
      (notifyLoop_called_when_new send today l sent it hnr hmem hpw hnew) h

/-- Invariant of the writer/reader interleaving: observations never run
ahead of the writer, the second read is at least as late (in writer
progress) as the first, and the reader's program counter tracks which
observations exist. -/
def rwInv (s : RWState) : Prop :=
  (∀ a, s.obsT = some a → a ≤ s.wpc) ∧
  (∀ b, s.obsR = some b → ∃ a, s.obsT = some a ∧ a ≤ b ∧ b ≤ s.wpc) ∧
  (s.rpc = 0 → s.obsT = none ∧ s.obsR = none) ∧
  (s.rpc = 1 → s.obsR = none ∧ ∃ a, s.obsT = some a)

theorem rwInv_init : rwInv initRW := by
  refine ⟨?_, ?_, ?_, ?_⟩
  · intro a ha; simp [initRW] at ha
  · intro b hb; simp [initRW] at hb
  · intro _; exact ⟨rfl, rfl⟩
  · intro h; simp [initRW] at h

theorem rwInv_write (s : RWState) (h : rwInv s) : rwInv (stepWrite s) := by
  obtain ⟨h1, h2, h3, h4⟩ := h
  rw [stepWrite]
  by_cases hw : s.wpc < 2
  · rw [if_pos hw]
    refine ⟨?_, ?_, h3, h4⟩
    · intro a ha
      dsimp only at ha ⊢
      exact Nat.le_succ_of_le (h1 a ha)
    · intro b hb
      dsimp only at hb ⊢
      rcases h2 b hb with ⟨a, hoa, hab, hbw⟩
      exact ⟨a, hoa, hab, Nat.le_succ_of_le hbw⟩
  · rw [if_neg hw]
    exact ⟨h1, h2, h3, h4⟩

theorem rwInv_read (s : RWState) (h : rwInv s) : rwInv (stepRead s) := by
  obtain ⟨h1, h2, h3, h4⟩ := h
  rw [stepRead]
  by_cases hr0 : s.rpc = 0
  · rw [if_pos hr0]
    refine ⟨?_, ?_, ?_, ?_⟩
    · intro a ha
      dsimp only at ha ⊢
      injection ha with ha
      omega
    · intro b hb
      dsimp only at hb
      rw [(h3 hr0).2] at hb
      exact absurd hb (by simp)
    · intro hc; simp at hc
    · intro _
      exact ⟨(h3 hr0).2, s.wpc, rfl⟩
  · rw [if_neg hr0]
    by_cases hr1 : s.rpc = 1
    · rw [if_pos hr1]
      refine ⟨h1, ?_, ?_, ?_⟩
      · intro b hb
        dsimp only at hb ⊢
        injection hb with hb
        rcases (h4 hr1).2 with ⟨a, hoa⟩
        refine ⟨a, hoa, ?_, ?_⟩
        · rw [← hb]; exact h1 a hoa
        · omega
      · intro hc; simp at hc
      · intro hc; simp at hc
    · rw [if_neg hr1]
      exact ⟨h1, h2, h3, h4⟩

theorem rwInv_run : ∀ (sched : List Bool) (s : RWState), rwInv s → rwInv (runSched sched s) := by
  intro sched
  induction sched with
  | nil => intro s h; exact h
  | cons b rest ih =>
    intro s h
    rw [runSched]
    cases b
    · exact ih _ (rwInv_read s h)
    · exact ih _ (rwInv_write s h)


/-! ## Concrete documents and records for the scenario claims -/

/-- DOM of the scenario markup `<tr>BTC/USDT Strong Buy -2.5% 14.3K</tr>`:
a `tr` element holding one text node, under the soup's document root. -/
def trScenarioDoc : Node :=
  .elem ("[document]") (.cons (.elem ("tr") (.cons (.text ("BTC/USDT Strong Buy -2.5% 14.3K")) .nil)) .nil)

/-- A document whose marker text node sits below five nested `span`
elements: no container ancestor exists at all, and the 5-level walk
stops at the outermost `span`. -/
def deepSpanDoc : Node :=
  .elem ("[document]")
    (.cons (.elem ("span") (.cons (.elem ("span") (.cons (.elem ("span")
      (.cons (.elem ("span") (.cons (.elem ("span")
        (.cons (.text ("Strong Buy")) .nil)) .nil)) .nil)) .nil)) .nil)) .nil)

/-- A document whose flattened row text starts with a pipe character
and contains no symbol-regex match. -/
def pipeDoc : Node :=
  .elem ("div") (.cons (.text ("|strong buy")) .nil)

/-- A record as produced by the extractor for the bare text
`Strong Buy` (used as a concrete filtered item for the cycle claims). -/
def strongBuyRec : Record :=
  ⟨("Strong Buy"), (""), (""), ("Strong Buy")⟩

/-- A document with two rows whose flattened texts both start with a
pipe and both contain the marker: extraction yields two records with
empty symbols (distinct dedup keys, identical notification keys). -/
def twinPipeDoc : Node :=
  .elem ("[document]")
    (.cons (.elem ("div") (.cons (.text ("|strong buy")) .nil))
    (.cons (.elem ("div") (.cons (.text ("|strong buyy")) .nil)) .nil))

/-- First record extracted from `twinPipeDoc`. -/
def pipeRec1 : Record :=
  ⟨(""), (""), (""), ("|strong buy")⟩

/-- Second record extracted from `twinPipeDoc`: same (empty) symbol,
different context. -/
def pipeRec2 : Record :=
  ⟨(""), (""), (""), ("|strong buyy")⟩

/-- A send collaborator that fails for the first twin record and
succeeds for the second. -/
def twinSend : Record → Option Bool :=
  fun r => some (r.context == ("|strong buyy"))

/-! ## The claims -/

/-- C1 counterexample: with one filtered candidate and a send call that
raises (an `Exception` escaping `send_telegram_message`, caught only by
the outer handler of lines 149-150), the cycle returns without
replacing the snapshot: the timestamp keeps its prior value 0 instead
of the cycle's clock reading 5, and the results keep their prior empty
value instead of the filtered list — contradicting the claim that the
snapshot is updated regardless of where the failure occurred. -/
theorem snapshot_lost_on_notify_fault :
  (scrape_tradingview_and_notify initState ("2025-01-01") 5 (Except.ok [strongBuyRec]) false
      (fun _ => none)).1.last_run_time ≠ 5 ∧
  (scrape_tradingview_and_notify initState ("2025-01-01") 5 (Except.ok [strongBuyRec]) false
      (fun _ => none)).1.last_run_results ≠ [strongBuyRec] := by
  constructor <;> decide

/-- C1 amended: failures are caught, and the snapshot is replaced
exactly when no exception strikes after the inner fetch guard: with no
filter fault and no raising send the snapshot is always replaced (with
the filtered results and the current instant, whatever the fetch
outcome); an exception injected in the filter step leaves the whole
state untouched, and a raising send leaves the snapshot (though not
necessarily the ledger) at its prior value. -/
theorem cycle_fault_isolation_amended (st : CycleState) (today : String) (now : Nat)
    (fr : Except Unit (List Record)) (send : Record → Option Bool) :
    ((∀ r, send r ≠ none) →
      (scrape_tradingview_and_notify st today now fr false send).1.last_run_time = now ∧
      (scrape_tradingview_and_notify st today now fr false send).1.last_run_results =
        (itemsOf fr).filter (fun it => containsMarker it.context)) ∧
    (scrape_tradingview_and_notify st today now fr true send).1 = st ∧
    ((notifyLoop send today ((itemsOf fr).filter (fun it => containsMarker it.context))
        st.last_sent).raised = true →
      (scrape_tradingview_and_notify st today now fr false send).1.last_run_time =
        st.last_run_time ∧
      (scrape_tradingview_and_notify st today now fr false send).1.last_run_results =
        st.last_run_results) := by
  refine ⟨?_, ?_, ?_⟩
  · intro hnr
    rw [scrape_tradingview_and_notify]
    dsimp only
    rw [notifyLoop_no_raise send today hnr]
    simp
  · rw [scrape_tradingview_and_notify]
    simp
  · intro hraise
    rw [scrape_tradingview_and_notify]
    dsimp only
    rw [hraise]
    simp

/-- Witness for the amended C1 theorem at concrete inputs. -/
theorem cycle_fault_isolation_amended_witness :
    (scrape_tradingview_and_notify initState ("2025-01-01") 7 (Except.ok []) false
      (fun _ => some false)).1.last_run_time = 7 :=
  ((cycle_fault_isolation_amended initState ("2025-01-01") 7 (Except.ok [])
    (fun _ => some false)).1 (fun _ => Option.some_ne_none false)).1

/-- C2: when the fetch collaborator fails (the inner `try` of
lines 122-126 catches the exception and leaves `items = []`), the
cycle still completes: the snapshot's results become the empty
sequence and the timestamp is updated to the current instant. -/
theorem fetch_failure_cycle_completes (st : CycleState) (today : String) (now : Nat)
    (send : Record → Option Bool) :
    (scrape_tradingview_and_notify st today now (Except.error ()) false send).1.last_run_results
      = [] ∧
    (scrape_tradingview_and_notify st today now (Except.error ()) false send).1.last_run_time
      = now := by
  rw [scrape_tradingview_and_notify]
  dsimp only
  rw [itemsOf]
  simp [notifyLoop]

theorem scrape_last_sent (st : CycleState) (today : String) (now : Nat)
    (fr : Except Unit (List Record)) (send : Record → Option Bool) :
    (scrape_tradingview_and_notify st today now fr false send).1.last_sent =
      (notifyLoop send today ((itemsOf fr).filter (fun it => containsMarker it.context))
        st.last_sent).sent := by
  rw [scrape_tradingview_and_notify]
  simp only [Bool.false_eq_true, if_false]
  split <;> rfl

theorem scrape_calls_eq (st : CycleState) (today : String) (now : Nat)
    (fr : Except Unit (List Record)) (send : Record → Option Bool) :
    (scrape_tradingview_and_notify st today now fr false send).2 =
      (notifyLoop send today ((itemsOf fr).filter (fun it => containsMarker it.context))
        st.last_sent).calls := by
  rw [scrape_tradingview_and_notify]
  simp only [Bool.false_eq_true, if_false]
  split <;> rfl

/-- Any record of the loop's worklist whose send call returned success
puts its key into the ledger — whether or not other records share that
key (if the record was skipped, the key was in the ledger already). -/
theorem notifyLoop_mem_success (send : Record → Option Bool) (today : String)
    (hnr : ∀ r, send r ≠ none) :
    ∀ (l : List Record) (sent : List String) (it : Record),
      it ∈ l → send it = some true →
      mkKey it.symbol today ∈ (notifyLoop send today l sent).sent := by
  intro l
  induction l with
  | nil => intro sent it hmem; simp at hmem
  | cons x rest ih =>
    intro sent it hmem hs
    rw [notifyLoop]
    rcases List.mem_cons.mp hmem with rfl | hmem
    · by_cases hk : mkKey it.symbol today ∈ sent
      · rw [if_pos hk]
        exact notifyLoop_mono send today _ rest sent hk
      · rw [if_neg hk]
        cases hsend : send it with
        | none => exact absurd hsend (hnr it)
        | some b =>
          cases b
          · rw [hsend] at hs; exact absurd hs (by simp)
          · exact notifyLoop_mono send today _ rest _ (List.mem_cons_self _ _)
    · by_cases hk : mkKey x.symbol today ∈ sent
      · rw [if_pos hk]
        exact ih sent it hmem hs
      · rw [if_neg hk]
        cases hsend : send x with
        | none => exact absurd hsend (hnr x)
        | some b => cases b <;> exact ih _ it hmem hs

/-- C3 counterexample: extraction does not guarantee distinct
notification keys — the two empty-symbol records of `twinPipeDoc`
(contexts `|strong buy` and `|strong buyy`) both survive extraction
and filtering and share the key `|2025-01-01`.  With the first
record's send reporting failure and the second's reporting success,
the shared key is in the ledger at the end of the cycle even though
the first record's send failed, and the next same-day cycle makes no
send call at all for the first record: the claimed per-record iff and
the retry are both false of the program. -/
theorem shared_key_marked_despite_failed_send :
    parse_rows_from_soup twinPipeDoc = [pipeRec1, pipeRec2] ∧
    mkKey pipeRec1.symbol ("2025-01-01") = mkKey pipeRec2.symbol ("2025-01-01") ∧
    twinSend pipeRec1 = some false ∧
    mkKey pipeRec1.symbol ("2025-01-01") ∉ initState.last_sent ∧
    mkKey pipeRec1.symbol ("2025-01-01") ∈
      (scrape_tradingview_and_notify initState ("2025-01-01") 1
        (Except.ok [pipeRec1, pipeRec2]) false twinSend).1.last_sent ∧
    pipeRec1 ∉ (scrape_tradingview_and_notify
      (scrape_tradingview_and_notify initState ("2025-01-01") 1
        (Except.ok [pipeRec1, pipeRec2]) false twinSend).1
      ("2025-01-01") 2 (Except.ok [pipeRec1, pipeRec2]) false twinSend).2 := by
  refine ⟨by decide, by decide, by decide, by decide, by decide, by decide⟩

/-- C3 amended: for a filtered record whose notification key is new,
the key ends up in the ledger if and only if some filtered record
carrying that key had its send call report success during the cycle;
when every send for the key fails, the key is left unmarked and the
candidate is sent again on the next same-day cycle; and when the
record's key is shared with no other filtered record, this reduces to
the claim's per-record form — marked iff its own send succeeded. -/
theorem key_marked_iff_shared_success (st : CycleState) (today : String) (now now2 : Nat)
    (items : List Record) (send send2 : Record → Option Bool) (it : Record)
    (hnr : ∀ r, send r ≠ none)
    (hmem : it ∈ items) (hctx : containsMarker it.context = true)
    (hnew : mkKey it.symbol today ∉ st.last_sent) :
    (mkKey it.symbol today ∈
        (scrape_tradingview_and_notify st today now (Except.ok items) false send).1.last_sent
      ↔ ∃ it', it' ∈ items.filter (fun r => containsMarker r.context) ∧
          mkKey it'.symbol today = mkKey it.symbol today ∧ send it' = some true) ∧
    ((∀ it', it' ∈ items.filter (fun r => containsMarker r.context) →
        mkKey it'.symbol today = mkKey it.symbol today → send it' ≠ some true) →
      mkKey it.symbol today ∉
        (scrape_tradingview_and_notify st today now (Except.ok items) false send).1.last_sent ∧
      it ∈ (scrape_tradingview_and_notify
        (scrape_tradingview_and_notify st today now (Except.ok items) false send).1
        today now2 (Except.ok [it]) false send2).2) ∧
    ((items.filter (fun r => containsMarker r.context)).Pairwise
        (fun a b => mkKey a.symbol today ≠ mkKey b.symbol today) →
      (mkKey it.symbol today ∈
          (scrape_tradingview_and_notify st today now (Except.ok items) false send).1.last_sent
        ↔ send it = some true)) := by
  have hfil : it ∈ items.filter (fun r => containsMarker r.context) :=
    List.mem_filter.mpr ⟨hmem, hctx⟩
  have hiff : mkKey it.symbol today ∈
      (scrape_tradingview_and_notify st today now (Except.ok items) false send).1.last_sent
      ↔ ∃ it', it' ∈ items.filter (fun r => containsMarker r.context) ∧
          mkKey it'.symbol today = mkKey it.symbol today ∧ send it' = some true := by
    rw [scrape_last_sent]
    constructor
    · intro hc
      rcases notifyLoop_sent_from send today _ _ _ hc with hc | ⟨it', hmem', hkey, hs⟩
      · exact absurd hc hnew
      · exact ⟨it', hmem', hkey, hs⟩
    · rintro ⟨it', hmem', hkey, hs⟩
      rw [← hkey]
      exact notifyLoop_mem_success send today hnr _ _ it' hmem' hs
  refine ⟨hiff, ?_, ?_⟩
  · intro hall
    have hnot : mkKey it.symbol today ∉
        (scrape_tradingview_and_notify st today now (Except.ok items) false send).1.last_sent := by
      intro hc
      rcases hiff.mp hc with ⟨it', hmem', hkey, hs⟩
      exact hall it' hmem' hkey hs
    refine ⟨hnot, ?_⟩
    rw [scrape_calls_eq]
    have hfl : (itemsOf (Except.ok [it])).filter (fun r => containsMarker r.context) = [it] := by
      rw [itemsOf]
      simp [hctx]
    rw [hfl, notifyLoop, if_neg hnot]
    cases send2 it with
    | none => exact List.mem_singleton.mpr rfl
    | some b => cases b <;> exact List.mem_cons_self _ _
  · intro hpw
    rw [scrape_last_sent]
    exact notifyLoop_new_key_iff send today _ _ it hnr hfil hpw hnew

/-- Witness for the amended C3 theorem at concrete inputs: one
candidate whose send reports failure (so no record with its key
succeeds), hence the key stays unmarked and the candidate is sent
again in the next same-day cycle. -/
theorem key_marked_iff_shared_success_witness :
    mkKey strongBuyRec.symbol ("2025-01-01") ∉
      (scrape_tradingview_and_notify initState ("2025-01-01") 1 (Except.ok [strongBuyRec]) false
        (fun _ => some false)).1.last_sent ∧
    strongBuyRec ∈ (scrape_tradingview_and_notify
      (scrape_tradingview_and_notify initState ("2025-01-01") 1 (Except.ok [strongBuyRec]) false
        (fun _ => some false)).1
      ("2025-01-01") 2 (Except.ok [strongBuyRec]) false (fun _ => some true)).2 :=
  (key_marked_iff_shared_success initState ("2025-01-01") 1 2 [strongBuyRec]
      (fun _ => some false) (fun _ => some true) strongBuyRec
      (fun _ => Option.some_ne_none false) (by decide) (by decide) (by decide)).2.1
    (fun _ _ _ h => absurd (Option.some.inj h) (by decide))

/-- C4: across any sequence of cycles in one process lifetime, once a
send for a `(symbol, day)` key has succeeded, no later cycle run on
that same day ever makes a send call for a record with that symbol:
at most one successful notification per key. -/
theorem at_most_one_send_per_key (st : CycleState) (ins : List CycleInput) (i j : Nat)
    (hij : i < j) (ini inj : CycleInput) (hi : ins[i]? = some ini) (hj : ins[j]? = some inj)
    (r r' : Record) (hcall : r ∈ ((runCycles st ins).2[i]?.getD []))
    (hsucc : ini.send r = some true) (hday : inj.today = ini.today)
    (hsym : r'.symbol = r.symbol) :
    r' ∉ ((runCycles st ins).2[j]?.getD []) :=
  runCycles_success_then_silent ins st i j hij ini inj hi hj r r' hcall hsucc hday hsym

/-- Witness for C4: two same-day cycles over the same candidate; the
first send succeeds, the second cycle makes no send call for it. -/
theorem at_most_one_send_per_key_witness :
    strongBuyRec ∉ ((runCycles initState
      [⟨("2025-01-01"), 1, Except.ok [strongBuyRec], false, fun _ => some true⟩,
       ⟨("2025-01-01"), 2, Except.ok [strongBuyRec], false, fun _ => some true⟩]).2[1]?.getD []) :=
  at_most_one_send_per_key initState
    [⟨("2025-01-01"), 1, Except.ok [strongBuyRec], false, fun _ => some true⟩,
     ⟨("2025-01-01"), 2, Except.ok [strongBuyRec], false, fun _ => some true⟩]
    0 1 (by decide)
    ⟨("2025-01-01"), 1, Except.ok [strongBuyRec], false, fun _ => some true⟩
    ⟨("2025-01-01"), 2, Except.ok [strongBuyRec], false, fun _ => some true⟩
    rfl rfl strongBuyRec strongBuyRec (by decide) rfl rfl rfl

/-- C5: every extraction pass deduplicates by the key rule (symbol if
non-empty, else the first 30 characters of context): the output equals
the first-occurrence-per-key subsequence of the pre-dedup results (so
the first-seen record is retained and first-seen order is preserved),
and its records have pairwise distinct keys. -/
theorem extraction_dedup_first_seen (root : Node) :
    parse_rows_from_soup root = keepFirstByKey (rawResults root) ∧
    (parse_rows_from_soup root).Pairwise (fun a b => dedupKey a ≠ dedupKey b) := by
  refine ⟨parse_eq_keepFirst root, ?_⟩
  rw [parse_eq_keepFirst root]
  exact keepFirst_pairwise _

/-- C6 counterexample: on the flattened text `1234%` the code's
change field is `234%` (the regex caps the integer part at three
digits), while the spec's rule — a number immediately followed by a
percent sign — matches `1234%`; the two disagree, and the code also
accepts whitespace before the percent sign (text `5 %`). -/
theorem change_field_spec_counterexample :
    (buildRecord ("1234%")).change_24h = ("234%") ∧
    searchChangeSpec ("1234%") = some ("1234%") ∧
    (buildRecord ("1234%")).change_24h ≠ (searchChangeSpec ("1234%")).getD "" ∧
    (buildRecord ("5 %")).change_24h = ("5 %") ∧
    searchChangeSpec ("5 %") = none := by
  refine ⟨by decide, by decide, by decide, by decide, by decide⟩

/-- C6 amended: the extracted `change_24h` field equals the first
match of an optionally-negative number of one to three integer digits,
optionally a comma/dot fractional part, followed by optional
whitespace and a percent sign — empty when no such match exists. -/
theorem change_field_amended (text : String) :
    (buildRecord text).change_24h = (searchChangeAmended text).getD "" := by
  rw [buildRecord]
  dsimp only
  rw [searchChange_eq_amended]

/-- C7: extracting from the scenario markup
`<tr>BTC/USDT Strong Buy -2.5% 14.3K</tr>` yields exactly one record
with symbol `BTC/USDT`, change `-2.5%` and volume `14.3K`. -/
theorem scenario_tr_markup_record :
    parse_rows_from_soup trScenarioDoc =
      [{ symbol := ("BTC/USDT"), change_24h := ("-2.5%"), volume_24h := ("14.3K"),
         context := ("BTC/USDT Strong Buy -2.5% 14.3K") }] := by
  decide

/-- C8 counterexample: in `deepSpanDoc` the marker has no container
ancestor at all (every node on every candidate chain is a
non-container), yet the extraction output is not empty — the walk
exhausts its budget at the outermost `span` and a record is still
built from it, contradicting the claim that such a marker contributes
no record. -/
theorem deep_marker_still_yields_record :
    ((candidateChains deepSpanDoc).map Prod.snd).all
      (fun ch => ch.all (fun n => !(isContainer n))) = true ∧
    parse_rows_from_soup deepSpanDoc =
      [{ symbol := ("Strong Buy"), change_24h := (""), volume_24h := (""),
         context := ("Strong Buy") }] ∧
    parse_rows_from_soup deepSpanDoc ≠ [] := by
  refine ⟨by decide, by decide, by decide⟩

/-- C8 amended: a marker contributes no record exactly when its upward
walk runs out of ancestors inside the budget — the chain (text node
plus ancestors up to the root) is at most 5 long and holds no
container; a budget-exhausted walk ending at a non-container element
still yields a record.  The number of records before dedup equals the
number of marker candidates whose walk returned a node, and extraction
is a total function (it never raises). -/
theorem marker_walk_amended (root : Node) (ch : List Node) :
    (rawResults root).length =
      ((candidateChains root).filter (fun p => (climb 5 p.2).isSome)).length ∧
    (climb 5 ch = none ↔ ch.length ≤ 5 ∧ ∀ c ∈ ch, isContainer c = false) :=
  ⟨rawResults_length root, climb_none_iff 5 ch⟩

/-- C9 counterexample: on `pipeDoc` the flattened text is
`|strong buy` — the symbol regex finds no match and the text before
the first pipe is empty, so the produced record's symbol is the empty
string and its dedup key falls back to the first 30 characters of the
context, contradicting the claim that the fallback chain never yields
an empty symbol. -/
theorem empty_symbol_record_exists :
    parse_rows_from_soup pipeDoc =
      [{ symbol := (""), change_24h := (""), volume_24h := (""), context := ("|strong buy") }] ∧
    dedupKey ⟨(""), (""), (""), ("|strong buy")⟩ = takeChars ("|strong buy") 30 := by
  refine ⟨by decide, by decide⟩

/-- C9 amended: a record produced by extraction has an empty symbol
exactly when the symbol regex finds no match in its context and the
context is non-empty but its first pipe-delimited segment is empty
(the flattened text starts with a pipe); only then is the dedup
fallback to the first 30 characters of context exercised. -/
theorem symbol_empty_characterisation (root : Node) (r : Record)
    (h : r ∈ parse_rows_from_soup root) :
    r.symbol = "" ↔
      searchSymbol r.context = none ∧ r.context ≠ "" ∧ firstPipeSeg r.context = "" := by
  have hraw : r ∈ rawResults root := mem_dedup_sub r _ _ h
  have hb := mem_raw_buildRecord root r hraw
  have hsym : r.symbol = symField r.context := by
    rw [hb]
    rfl
  rw [hsym]
  exact symField_empty_iff r.context

/-- Witness for the amended C9 theorem at the concrete document. -/
theorem symbol_empty_characterisation_witness :
    (Record.mk ("") ("") ("") ("|strong buy")).symbol = "" ↔
      searchSymbol (Record.mk ("") ("") ("") ("|strong buy")).context = none ∧
      (Record.mk ("") ("") ("") ("|strong buy")).context ≠ "" ∧
      firstPipeSeg (Record.mk ("") ("") ("") ("|strong buy")).context = "" :=
  symbol_empty_characterisation pipeDoc (Record.mk ("") ("") ("") ("|strong buy")) (by decide)

/-- C10 counterexample: schedule the reader's first step (reading the
timestamp) before the writer's two assignments and its second step
(reading the results) after them: the observation pairs the prior
timestamp 1 with the next results `[strongBuyRec]` — neither the
prior complete snapshot `(1, [])` nor the next complete snapshot
`(2, [strongBuyRec])`. -/
theorem mixed_snapshot_observation :
    (runSched [false, true, true, false] initRW).obsT = some 0 ∧
    (runSched [false, true, true, false] initRW).obsR = some 2 ∧
    timeAt 1 2 0 = 1 ∧ resultsAt [] [strongBuyRec] 2 = [strongBuyRec] ∧
    ¬((1 : Nat) = 1 ∧ ([strongBuyRec] : List Record) = []) ∧
    ¬((1 : Nat) = 2 ∧ ([strongBuyRec] : List Record) = [strongBuyRec]) := by
  refine ⟨by decide, by decide, by decide, by decide, by decide, by decide⟩

/-- C10 amended: a status read concurrent with the snapshot
replacement observes one of exactly three value pairs — the prior
snapshot, the next snapshot, or the prior timestamp with the next
results.  The fourth combination (next timestamp, prior results) is
impossible because the results are written before the timestamp while
the reader reads the timestamp before the results. -/
theorem snapshot_read_three_outcomes (oldT newT : Nat) (oldR newR : List Record)
    (sched : List Bool) (a b : Nat)
    (ha : (runSched sched initRW).obsT = some a)
    (hb : (runSched sched initRW).obsR = some b) :
    (timeAt oldT newT a = oldT ∧ resultsAt oldR newR b = oldR) ∨
    (timeAt oldT newT a = oldT ∧ resultsAt oldR newR b = newR) ∨
    (timeAt oldT newT a = newT ∧ resultsAt oldR newR b = newR) := by
  have hinv := rwInv_run sched initRW rwInv_init
  obtain ⟨h1, h2, _, _⟩ := hinv
  rcases h2 b hb with ⟨a', hoa, hab, _⟩
  rw [ha] at hoa
  injection hoa with hoa
  subst hoa
  by_cases h2a : 2 ≤ a
  · refine Or.inr (Or.inr ⟨?_, ?_⟩)
    · rw [timeAt, if_pos h2a]
    · rw [resultsAt, if_pos (by omega)]
  · by_cases h1b : 1 ≤ b
    · refine Or.inr (Or.inl ⟨?_, ?_⟩)
      · rw [timeAt, if_neg h2a]
      · rw [resultsAt, if_pos h1b]
    · refine Or.inl ⟨?_, ?_⟩
      · rw [timeAt, if_neg h2a]
      · rw [resultsAt, if_neg h1b]

/-- Witness for the amended C10 theorem at a concrete schedule. -/
theorem snapshot_read_three_outcomes_witness :
    (timeAt 1 2 0 = 1 ∧ resultsAt [] [strongBuyRec] 2 = []) ∨
    (timeAt 1 2 0 = 1 ∧ resultsAt [] [strongBuyRec] 2 = [strongBuyRec]) ∨
    (timeAt 1 2 0 = 2 ∧ resultsAt [] [strongBuyRec] 2 = [strongBuyRec]) :=
  snapshot_read_three_outcomes 1 2 [] [strongBuyRec] [false, true, true, false] 0 2
    (by decide) (by decide)
